/-
Verification development for the cimpy CGMES export engine
(`cimpy/cimexport.py`).

The file shallowly embeds the core of the export pipeline:

* `_search_mRID`        — identity scan of the registry;
* `_get_reference_uuid` — reference resolution and default suppression;
* `_sort_classes_to_profile` — class- and attribute-level profile
  assignment and partitioning into the export plan and the about plan;
* `short_profile_name` / `cgmesProfile` — the fixed profile enumeration
  and the iteration order used by `cim_export`.

Modelling conventions (each noted again at the definition it concerns):

* Profiles are represented by the enumeration `cgmesProfile`.  The source
  stores a profile sometimes as its short name (a string, e.g. "EQ") and
  sometimes as its priority rank (an int, the `.value` of the enum);
  both representations are in bijection with the enum, so the embedding
  uses the enum everywhere and `cgmesProfile.value` where the source
  manipulates the rank.  The importer that populates `readInProfile` and
  `possibleProfileList` is outside the exported source; their value
  representation follows the spec (a profile, resp. a rank list).
* Python dictionaries are association lists in insertion order; keys are
  unique in every dictionary the pipeline builds.
* Python objects reachable from attribute values are represented by
  `PyScalar`/`PyVal`.  CIM attribute values are scalars, model objects,
  or flat lists of those (the source iterates lists one level deep and
  treats each element atomically), so list elements are scalars.
* Model objects (instances of subclasses of `Base`) live in an explicit
  arena and are referenced by their index; Python `==` on them is
  identity, i.e. index equality.
* Python exceptions that the embedded code can raise (`KeyError` at the
  unguarded dictionary access, `NameError` for the stale loop variable
  `elem`) are modelled with `Except PyErr`.
-/
import Mathlib

/-! ### The profile enumeration (`cgmesProfile`, line 417) -/

/-- The CGMES profile enumeration of the source, with its export
priority rank (`cgmesProfile = Enum(..., {"EQ": 0, ..., "DI": 6})`). -/
inductive cgmesProfile where
  | EQ | SSH | TP | SV | DY | GL | DI
deriving DecidableEq, Repr

/-- `cgmesProfile(...).value`: the priority rank of a profile. -/
def cgmesProfile.value : cgmesProfile → Nat
  | .EQ => 0 | .SSH => 1 | .TP => 2 | .SV => 3 | .DY => 4 | .GL => 5 | .DI => 6

/-- `short_profile_name` (lines 406-414): the mapping from full profile
names to short names, in the literal insertion order of the source.  The
short-name strings are in bijection with the enum and are represented by
it. -/
def short_profile_name : List (String × cgmesProfile) :=
  [("DiagramLayout", .DI), ("Dynamics", .DY), ("Equipment", .EQ),
   ("GeographicalLocation", .GL), ("StateVariables", .SV),
   ("SteadyStateHypothesis", .SSH), ("Topology", .TP)]

/-! ### Python values -/

/-- A scalar Python value as the exporter distinguishes them: strings,
numbers (Python `int` and `float` are merged; `==` bridges them and the
default filter treats `0` and `0.0` alike), booleans, `None`, and model
objects (instances of `Base` subclasses), referenced by arena index. -/
inductive PyScalar where
  | str (s : String)
  | num (q : Rat)
  | bool (b : Bool)
  | pynone
  | obj (h : Nat)
deriving DecidableEq, Repr

/-- An attribute value: a scalar or a flat list of scalars (the source
iterates a list value one level deep, treating each element atomically;
an element that is not a `Base` subclass — of whatever type — is dropped
with a warning). -/
inductive PyVal where
  | atom (a : PyScalar)
  | list (xs : List PyScalar)
deriving DecidableEq, Repr

/-- Python `==` on scalars: numeric values and booleans compare by value
(`False == 0 == 0.0`), objects by identity, everything else by
structure; values of unrelated types are unequal. -/
def pyEqS : PyScalar → PyScalar → Bool
  | .str a, .str b => a == b
  | .num a, .num b => a == b
  | .bool a, .bool b => a == b
  | .bool a, .num b => (if a then (1 : Rat) else 0) == b
  | .num a, .bool b => a == (if b then (1 : Rat) else 0)
  | .pynone, .pynone => true
  | .obj a, .obj b => a == b
  | _, _ => false

/-- Python `==` on attribute values: lists compare elementwise, a list
never equals a scalar. -/
def pyEq : PyVal → PyVal → Bool
  | .atom a, .atom b => pyEqS a b
  | .list as, .list bs => as.length == bs.length && (as.zip bs).all fun p => pyEqS p.1 p.2
  | _, _ => false

/-- A model object: its class name and its direct `mRID` attribute
(`none` models `not hasattr(obj, 'mRID')`). -/
structure MObj where
  className : String
  mRID : Option String
deriving DecidableEq, Repr

/-- Look an object up in the arena.  The pipeline only produces valid
indices; the default is never reached on source-reachable inputs. -/
def arenaGet (arena : List MObj) (h : Nat) : MObj :=
  arena.getD h ⟨"", none⟩

/-- The `__class__.__name__` of a value, used in warning messages
(`int`/`float` are merged into `num`, reported as "float"). -/
def pyClassName (arena : List MObj) : PyScalar → String
  | .obj h => (arenaGet arena h).className
  | .str _ => "str"
  | .num _ => "float"
  | .bool _ => "bool"
  | .pynone => "NoneType"

/-- Modelled Python exceptions: the `KeyError` a missing dictionary key
raises at the unguarded access of line 169, and the `NameError` raised
at line 72 when the loop variable `elem` was never bound. -/
inductive PyErr where
  | keyError
  | nameError
deriving DecidableEq, Repr

/-! ### `_search_mRID` (lines 98-102) -/

/-- `_search_mRID(class_object, res)`: scan the registry (an insertion-
ordered mapping mRID → object) for the first entry whose object is the
target (Python `==` on `Base` objects is identity, i.e. index equality)
and return its key; return `""` when no entry matches. -/
def _search_mRID (res : List (String × Nat)) (h : Nat) : String :=
  match res.find? fun kv => kv.2 == h with
  | some kv => kv.1
  | none => ""

/-! ### `_get_reference_uuid` (lines 31-93) -/

/-- Warnings logged by `_get_reference_uuid`. -/
inductive Warn where
  /-- line 53: a list element without direct mRID was not found in the
  registry; carries the element's class name and the owner's mRID. -/
  | refNotFoundMany (className : String) (owner : String)
  /-- line 60: a list element is not a `Base` subclass. -/
  | notBase (owner : String)
  /-- line 72: a scalar reference without direct mRID was not found; the
  source formats the message from the stale loop variable `elem`, so the
  class name reported is that of the last iterated list element. -/
  | refNotFoundOne (className : String) (owner : String)
deriving DecidableEq, Repr

/-- One entry of the list returned by `_get_reference_uuid`: either the
pass-through of the `readInProfile`/`possibleProfileList` metadata
entries (lines 37-39) or an attribute record `{'value': v,
'attr_name': k}`. -/
inductive RefRec where
  | meta (key : String) (v : PyVal)
  | attr (value : PyVal) (attr_name : String)
deriving DecidableEq, Repr

/-- The output of `_get_reference_uuid`: the record list and the
warnings logged while producing it. -/
structure RefOut where
  recs : List RefRec
  warns : List Warn
deriving DecidableEq, Repr

/-- The filter applied to list elements before emission (line 87):
membership, via Python `==`, in `['', None, 0.0, 0]` (`0` and `0.0` are
one value in the model). -/
def isDefault4S (x : PyScalar) : Bool :=
  pyEqS x (.str "") || pyEqS x .pynone || pyEqS x (.num 0)

/-- The same four-value default test on an attribute value. -/
def isDefault4 (v : PyVal) : Bool :=
  pyEq v (.atom (.str "")) || pyEq v (.atom .pynone) || pyEq v (.atom (.num 0))

/-- The filter applied to scalar values before emission (line 90):
membership, via Python `==`, in `['', None, 0.0, 0, 'many']`. -/
def isDefaultScalar (v : PyVal) : Bool :=
  isDefault4 v || pyEq v (.atom (.str "many"))

/-- The inner loop of lines 44-60: iterate the elements of a list-valued
attribute, turning each `Base` object into a reference token
`'%' + mRID` (via `_search_mRID` when there is no direct `mRID`,
warning when that also fails), warning about and dropping non-`Base`
elements.  The loop variable `elem` stays bound to the last iterated
element; the state is `(array, warnings, elem)`. -/
def refListLoop (arena : List MObj) (res : List (String × Nat)) (owner : String) :
    List PyScalar → List String × List Warn × Option PyScalar →
    List String × List Warn × Option PyScalar
  | [], st => st
  | e :: es, (array, ws, _) =>
    match e with
    | .obj h =>
      match (arenaGet arena h).mRID with
      | none =>
        let u := "%" ++ _search_mRID res h
        let ws2 := if u = "%" then
            ws ++ [.refNotFoundMany (arenaGet arena h).className owner] else ws
        refListLoop arena res owner es (array ++ [u], ws2, some (.obj h))
      | some m =>
        refListLoop arena res owner es (array ++ ["%" ++ m], ws, some (.obj h))
    | e => refListLoop arena res owner es (array, ws ++ [.notBase owner], some e)

/-- The emission step of lines 82-91: a list value contributes one
record per element surviving the four-value default filter; any other
value contributes one record unless it is a default (including
`'many'`); no record is produced when no value was set. -/
def emitRecords (key : String) (value : Option PyVal) : List RefRec :=
  match value with
  | none => []
  | some (.list xs) =>
    (xs.filter fun x => !(isDefault4S x)).map fun x => .attr (.atom x) key
  | some v => if isDefaultScalar v then [] else [.attr v key]

/-- Process one `attr_dict` entry (the body of the loop of lines
36-91).  State: the output so far and the loop variable `elem` of the
inner list loop (a Python function-local that persists across keys). -/
def refStep (arena : List MObj) (res : List (String × Nat)) (owner : String)
    (st : RefOut × Option PyScalar) (key : String) (v : PyVal) :
    Except PyErr (RefOut × Option PyScalar) :=
  let out := st.1
  let le := st.2
  if key = "readInProfile" ∨ key = "possibleProfileList" then
    .ok ({ out with recs := out.recs ++ [.meta key v] }, le)
  else
    match v with
    | .list xs =>
      let (array, ws2, le2) := refListLoop arena res owner xs ([], out.warns, le)
      let value : PyVal := match array with
        | [t] => .atom (.str t)
        | _ => .list (array.map .str)
      .ok (⟨out.recs ++ emitRecords key (some value), ws2⟩, le2)
    | .atom (.obj h) =>
      match (arenaGet arena h).mRID with
      | none =>
        let u := "%" ++ _search_mRID res h
        if u = "%" then
          match le with
          | none => .error .nameError
          | some e =>
            .ok (⟨out.recs ++ emitRecords key (some (.atom (.str u))),
                  out.warns ++ [.refNotFoundOne (pyClassName arena e) owner]⟩, le)
        else
          .ok (⟨out.recs ++ emitRecords key (some (.atom (.str u))), out.warns⟩, le)
      | some m =>
        .ok (⟨out.recs ++ emitRecords key (some (.atom (.str ("%" ++ m)))),
              out.warns⟩, le)
    | .atom a =>
      let value : Option PyVal :=
        if pyEq (.atom a) (.atom (.str "")) || a == .pynone then none
        else some (.atom a)
      .ok (⟨out.recs ++ emitRecords key value, out.warns⟩, le)

/-- The loop of `_get_reference_uuid` over the attribute dictionary. -/
def refGo (arena : List MObj) (res : List (String × Nat)) (owner : String) :
    List (String × PyVal) → RefOut × Option PyScalar →
    Except PyErr (RefOut × Option PyScalar)
  | [], st => .ok st
  | (k, v) :: rest, st =>
    (refStep arena res owner st k v).bind (refGo arena res owner rest)

/-- `_get_reference_uuid(attr_dict, version, res, mRID)` (lines 31-93):
resolve the references in an attribute dictionary against the registry
`res` on behalf of the object with identifier `owner`.  The `version`
parameter only selects the `Base` class and is dropped. -/
def _get_reference_uuid (arena : List MObj) (attr_dict : List (String × PyVal))
    (res : List (String × Nat)) (owner : String) : Except PyErr RefOut :=
  (refGo arena res owner attr_dict (⟨[], []⟩, none)).map Prod.fst

/-! ### `_sort_classes_to_profile` (lines 148-274) -/

/-- An attribute record as consumed by `_sort_classes_to_profile`:
the `{'value': ..., 'attr_name': ...}` dictionaries produced by
`_get_reference_uuid` (the `RefRec.attr` entries). -/
structure AttrRec where
  value : PyVal
  attr_name : String
deriving DecidableEq, Repr

/-- A `possibleProfileList` as carried by a class instance: per class
name, per attribute name (plus the literal key `"class"`), the list of
allowed profiles.  The source stores the priority ranks (the enum
values); the embedding stores the enum, sorting by `cgmesProfile.value`
where the source sorts the ranks. -/
abbrev PPLty := List (String × List (String × List cgmesProfile))

/-- One entry of `class_attributes_list`: the source stores
`readInProfile` and `possibleProfileList` as the first two entries of
the `attributes` list (lines 160-161); the embedding carries them as
fields.  `readInProfile` maps an attribute name (or `"class"`) to the
profile the value was read from. -/
structure Klass where
  name : String
  mRID : String
  readInProfile : List (String × cgmesProfile)
  possibleProfileList : PPLty
  attributes : List AttrRec
deriving DecidableEq, Repr

/-- Dictionary lookup on an insertion-ordered association list. -/
def lookupA {α : Type} (l : List (String × α)) (k : String) : Option α :=
  (l.find? fun kv => kv.1 == k).map Prod.snd

/-- Dictionary update at an existing key, keeping the key position
(Python dict semantics; in-place `list.sort()` is such an update). -/
def updateA {α : Type} (l : List (String × α)) (k : String) (v : α) :
    List (String × α) :=
  l.map fun kv => if kv.1 == k then (kv.1, v) else kv

/-- `list.sort()` on a list of priority ranks: stable ascending sort by
`cgmesProfile.value`. -/
def sortByValue (l : List cgmesProfile) : List cgmesProfile :=
  l.insertionSort fun a b => a.value ≤ b.value

/-- The scan of lines 186-190 / 227-231: first entry of the (sorted)
allowed list whose profile is in the active list. -/
def firstActive (l active : List cgmesProfile) : Option cgmesProfile :=
  l.find? fun p => active.contains p

/-- Warnings logged by `_sort_classes_to_profile` (`logger.info` calls
are not warnings and are not modelled). -/
inductive SWarn where
  /-- line 175: class read from a profile not possible for it. -/
  | readNotPossible (klassName : String)
  /-- line 193: no allowed class profile is active; the class is
  skipped. -/
  | allClassInactive (klassName : String)
  /-- lines 197 and 199: the class has no profile to export to. -/
  | classNoProfile (klassName : String)
  /-- line 234: no allowed profile of the attribute is active; the
  attribute is skipped. -/
  | attrAllInactive (attrClass attrName klassName : String)
  /-- line 239: the attribute has no profile to export to. -/
  | attrNoProfile (attrClass attrName klassName : String)
  /-- line 242: the attribute's class is not in the
  possibleProfileList. -/
  | attrClassMissing (attrClass attrName : String)
deriving DecidableEq, Repr

/-- The fallback block of lines 181-199 (`if class_serializationProfile
== ''`): scan the class's allowed `class` profile set, sorted in place
ascending by rank (line 185), for the first active entry.  Returns the
resolved profile (`none` models `''`), whether the instance is dropped
(the `continue` of line 195), the `possibleProfileList` after the
in-place sort, and the accumulated warnings. -/
def classFallback (active : List cgmesProfile) (k : Klass) (ws : List SWarn) :
    Option cgmesProfile × Bool × PPLty × List SWarn :=
  match lookupA k.possibleProfileList k.name with
  | some m =>
    match lookupA m "class" with
    | some l =>
      let ls := sortByValue l
      let ppl2 := updateA k.possibleProfileList k.name (updateA m "class" ls)
      match firstActive ls active with
      | some p => (some p, false, ppl2, ws)
      | none => (none, true, ppl2, ws ++ [.allClassInactive k.name])
    | none => (none, false, k.possibleProfileList, ws ++ [.classNoProfile k.name])
  | none => (none, false, k.possibleProfileList, ws ++ [.classNoProfile k.name])

/-- Class-level profile resolution (lines 163-199): the provenance
shortcut of lines 165-176 (used only when the declared profile is both
active and in the allowed `class` set), falling back to
`classFallback` otherwise.  The access
`possibleProfileList[klass['name']]['class']` of line 169 is unguarded
in the source and raises `KeyError` when a key is missing. -/
def class_serializationProfile (active : List cgmesProfile) (k : Klass) :
    Except PyErr (Option cgmesProfile × Bool × PPLty × List SWarn) :=
  match lookupA k.readInProfile "class" with
  | some p =>
    if active.contains p then
      match (lookupA k.possibleProfileList k.name).bind
          (fun m => lookupA m "class") with
      | none => .error .keyError
      | some l =>
        if l.contains p then .ok (some p, false, k.possibleProfileList, [])
        else .ok (classFallback active k [.readNotPossible k.name])
    else .ok (classFallback active k [])
  | none => .ok (classFallback active k [])

/-- Python `attr_name.split('.')[0]`: the class qualifier of an
attribute name. -/
def attrClassOf (s : String) : String :=
  String.mk ((s.toList.splitOn '.').headD [])

/-- Python `attr_name.split('.')[1]`: the bare attribute name.  The
pipeline always produces names of the form `Class.attr`. -/
def attrNameOf (s : String) : String :=
  String.mk ((s.toList.splitOn '.').getD 1 [])

/-- Attribute-level profile resolution (lines 202-243) for one
attribute record.  Returns `none` when the record contributes nothing
(the `mRID` skip of line 208 or the `continue` of line 237), or
`some asp` where `asp` is the resolved profile (`none` models `''`);
plus the `possibleProfileList` after the in-place sort of line 226 and
the warnings. -/
def attribute_serializationProfile (active : List cgmesProfile)
    (rip : List (String × cgmesProfile)) (klassName : String) (ppl : PPLty)
    (a : AttrRec) :
    Option (Option cgmesProfile) × PPLty × List SWarn :=
  let aCls := attrClassOf a.attr_name
  let aName := attrNameOf a.attr_name
  if aName = "mRID" then (none, ppl, [])
  else
    let step1 : Option cgmesProfile :=
      match lookupA rip aName with
      | some p => if active.contains p then some p else none
      | none => none
    match step1 with
    | some p => (some (some p), ppl, [])
    | none =>
      match lookupA ppl aCls with
      | some m =>
        match lookupA m aName with
        | some l =>
          let ls := sortByValue l
          let ppl2 := updateA ppl aCls (updateA m aName ls)
          match firstActive ls active with
          | some p => (some (some p), ppl2, [])
          | none => (none, ppl2, [.attrAllInactive aCls aName klassName])
        | none => (some none, ppl, [.attrNoProfile aCls aName klassName])
      | none => (some none, ppl, [.attrClassMissing aCls aName])

/-- `dict`-style accumulation: append `v` to the entry of key `k`,
creating the entry at the end when the key is new (Python dict
insertion order). -/
def pushAssoc {κ α : Type} [DecidableEq κ] (d : List (κ × List α)) (k : κ)
    (v : α) : List (κ × List α) :=
  if (d.find? fun e => e.1 = k).isSome then
    d.map fun e => if e.1 = k then (e.1, e.2 ++ [v]) else e
  else d ++ [(k, [v])]

/-- The attribute loop of lines 202-254: partition the attribute
records of one instance into `same_package_list` (profile equal to the
class profile, line 245) and `about_dict` (per attribute profile,
lines 251-254), threading the `possibleProfileList` state. -/
def processAttrs (active : List cgmesProfile) (rip : List (String × cgmesProfile))
    (klassName : String) (csp : Option cgmesProfile) :
    List AttrRec → PPLty → List AttrRec →
    List (Option cgmesProfile × List AttrRec) → List SWarn →
    PPLty × List AttrRec × List (Option cgmesProfile × List AttrRec) × List SWarn
  | [], ppl, same, about, ws => (ppl, same, about, ws)
  | a :: rest, ppl, same, about, ws =>
    let r := attribute_serializationProfile active rip klassName ppl a
    match r.1 with
    | none => processAttrs active rip klassName csp rest r.2.1 same about (ws ++ r.2.2)
    | some asp =>
      if asp = csp then
        processAttrs active rip klassName csp rest r.2.1 (same ++ [a]) about (ws ++ r.2.2)
      else
        processAttrs active rip klassName csp rest r.2.1 same
          (pushAssoc about asp a) (ws ++ r.2.2)

/-- The per-instance outcome: the class profile, the records owned by
that profile, and the per-profile `about` records. -/
structure PK where
  csp : Option cgmesProfile
  same : List AttrRec
  about : List (Option cgmesProfile × List AttrRec)
deriving DecidableEq, Repr

/-- One iteration of the class loop of `_sort_classes_to_profile`:
resolve the class profile, drop the instance on the `continue` of line
195 (`none`), otherwise partition its attributes.  Also returns the
instance's `possibleProfileList` after the in-place sorts and the
warnings. -/
def processKlass (active : List cgmesProfile) (k : Klass) :
    Except PyErr (Option PK × PPLty × List SWarn) :=
  (class_serializationProfile active k).bind fun c =>
    match c with
    | (csp, dropped, ppl1, w1) =>
      if dropped then .ok (none, ppl1, w1)
      else
        let r := processAttrs active k.readInProfile k.name csp k.attributes ppl1 [] [] []
        .ok (some ⟨csp, r.2.1, r.2.2.1⟩, r.1, w1 ++ r.2.2.2)

/-- One entry of the export plan: `{'name': ..., 'mRID': ...,
'attributes': [...]}` (lines 258, 262, 268, 271). -/
structure EClass where
  name : String
  mRID : String
  attributes : List AttrRec
deriving DecidableEq, Repr

/-- `export_dict` / `export_about_dict`: per profile (key `none` models
the empty-string profile `''`), the list of class entries, in insertion
order (the source wraps the list in `{'classes': [...]}`; the embedding
stores the list directly). -/
abbrev EDict := List (Option cgmesProfile × List EClass)

/-- The full result of `_sort_classes_to_profile`, together with the
final `possibleProfileList` of each processed instance (the in-place
sorts of lines 185 and 226 mutate state reachable from the registry)
and the warnings. -/
structure SortOut where
  export_dict : EDict
  export_about_dict : EDict
  ppls : List PPLty
  warns : List SWarn
deriving DecidableEq, Repr

/-- The class loop of `_sort_classes_to_profile` (lines 153-272). -/
def sortGo (active : List cgmesProfile) :
    List Klass → EDict → EDict → List PPLty → List SWarn → Except PyErr SortOut
  | [], ed, ad, ps, ws => .ok ⟨ed, ad, ps, ws⟩
  | k :: rest, ed, ad, ps, ws =>
    match processKlass active k with
    | .error e => .error e
    | .ok (none, ppl2, w) => sortGo active rest ed ad (ps ++ [ppl2]) (ws ++ w)
    | .ok (some pk, ppl2, w) =>
      let ed2 := pushAssoc ed pk.csp (⟨k.name, k.mRID, pk.same⟩ : EClass)
      let ad2 := pk.about.foldl
        (fun acc kv => pushAssoc acc kv.1 (⟨k.name, k.mRID, kv.2⟩ : EClass)) ad
      sortGo active rest ed2 ad2 (ps ++ [ppl2]) (ws ++ w)

/-- `_sort_classes_to_profile(class_attributes_list, activeProfileList)`
(lines 148-274). -/
def _sort_classes_to_profile (active : List cgmesProfile) (ks : List Klass) :
    Except PyErr SortOut :=
  sortGo active ks [] [] [] []

/-! ### The profile iteration of `cim_export` (lines 311-331) -/

/-- Membership test `short_name in dict.keys()`. -/
def hasKey (d : EDict) (k : Option cgmesProfile) : Bool :=
  d.any fun e => e.1 == k

/-- The profiles `cim_export` actually assembles a payload for, in
iteration order: it walks `short_profile_name.items()` in insertion
order (line 312) and skips a profile present in neither dictionary
(lines 318-320). -/
def profilesWithPayload (ed ad : EDict) : List (String × cgmesProfile) :=
  short_profile_name.filter fun pn => hasKey ed (some pn.2) || hasKey ad (some pn.2)

/-! ### Specification functions and concrete inputs for the claims -/

/-- The class-level resolution rule exactly as the specification words
it: (1) a provenance-declared `class` profile that is active and listed
in the class's allowed `class` profile set is used; (2) otherwise the
allowed `class` profile set is scanned in ascending priority order and
the first active entry wins. -/
def claimClassProfile (rip : List (String × cgmesProfile)) (ppl : PPLty)
    (name : String) (active : List cgmesProfile) : Option cgmesProfile :=
  let allowed := ((lookupA ppl name).bind fun m => lookupA m "class").getD []
  match lookupA rip "class" with
  | some p =>
    if active.contains p && allowed.contains p then some p
    else firstActive (sortByValue allowed) active
  | none => firstActive (sortByValue allowed) active

/-- A list element that resolves directly: a model object carrying an
`mRID` attribute. -/
def isResolvableObj (arena : List MObj) (e : PyScalar) : Bool :=
  match e with
  | .obj h => ((arenaGet arena h).mRID).isSome
  | _ => false

/-- The reference token produced for a list element: `'%' + mRID`
(`"%"` alone for an unresolvable element). -/
def elemToken (arena : List MObj) (e : PyScalar) : String :=
  match e with
  | .obj h => "%" ++ ((arenaGet arena h).mRID).getD ""
  | _ => "%"

/-- Whether a record list contains a list-valued attribute record. -/
def hasListValuedRec (rs : List RefRec) : Bool :=
  rs.any fun r => match r with
    | .attr (.list _) _ => true
    | _ => false

/-- A `possibleProfileList` whose dictionaries have unique keys (as
every Python dict does) and whose profile lists are already in
ascending rank order. -/
def sortedPPL (ppl : PPLty) : Prop :=
  (ppl.map Prod.fst).Nodup ∧
  ∀ e ∈ ppl, (e.2.map Prod.fst).Nodup ∧
    ∀ f ∈ e.2, List.Sorted (fun a b => cgmesProfile.value a ≤ cgmesProfile.value b) f.2

/-- Decidable equality on `Except` results, for evaluating concrete
runs of the embedded functions. -/
instance {e a : Type} [DecidableEq e] [DecidableEq a] : DecidableEq (Except e a)
  | .error x, .error y =>
    if h : x = y then .isTrue (congrArg Except.error h)
    else .isFalse fun hh => h (Except.error.inj hh)
  | .ok x, .ok y =>
    if h : x = y then .isTrue (congrArg Except.ok h)
    else .isFalse fun hh => h (Except.ok.inj hh)
  | .error _, .ok _ => .isFalse fun hh => Except.noConfusion hh
  | .ok _, .error _ => .isFalse fun hh => Except.noConfusion hh

instance (ppl : PPLty) : Decidable (sortedPPL ppl) := by
  unfold sortedPPL
  infer_instance

/-- The well-formedness predicate on emitted attribute records used to
settle the default-suppression claims: the value passes the four-value
default filter, is never itself a list, and is either filtered against
`'many'` as well or is a `%`-prefixed reference token. -/
def goodRecVal (v : PyVal) : Prop :=
  isDefault4 v = false ∧ (∀ xs, v ≠ .list xs) ∧
  (pyEq v (.atom (.str "many")) = false ∨ ∃ s, v = .atom (.str ("%" ++ s)))

/-- C1's concrete instance: class `K` imported from `EQ`, its attribute
`K.x` imported from `SV`; the allowed set of both the class and the
attribute is `[EQ]` only. -/
def c1Klass : Klass :=
  { name := "K", mRID := "m1",
    readInProfile := [("class", .EQ), ("x", .SV)],
    possibleProfileList := [("K", [("class", [.EQ]), ("x", [.EQ])])],
    attributes := [⟨.atom (.str "v"), "K.x"⟩] }

/-- C2's concrete instance: class `X` with no `possibleProfileList`
entry at all and no provenance. -/
def c2Klass : Klass :=
  { name := "X", mRID := "m2", readInProfile := [],
    possibleProfileList := [], attributes := [] }

/-- C2's witness instance: class `Y` whose only allowed class profile
`TP` is inactive. -/
def c2wKlass : Klass :=
  { name := "Y", mRID := "m2w", readInProfile := [],
    possibleProfileList := [("Y", [("class", [.TP])])], attributes := [] }

/-- C3's arena: one object of class `T` without an `mRID` attribute. -/
def c3Arena : List MObj := [⟨"T", none⟩]

/-- C4's witness instance: no provenance, allowed class profiles
`[TP, EQ]`. -/
def c4Klass : Klass :=
  { name := "X", mRID := "m4", readInProfile := [],
    possibleProfileList := [("X", [("class", [.TP, .EQ])])], attributes := [] }

/-- C5/C10's witness attribute dictionary: one plain scalar value. -/
def c5Dict : List (String × PyVal) := [("K.a", .atom (.str "v"))]

/-- C6's arena: two objects carrying mRIDs `A1` and `B1`. -/
def c6Arena : List MObj := [⟨"A", some "A1"⟩, ⟨"B", some "B1"⟩]

/-- C7's export dictionary: payloads for both `EQ` (rank 0) and `DI`
(rank 6). -/
def c7ed : EDict := [(some .EQ, []), (some .DI, [])]

/-- C8's concrete instance: allowed class profiles stored as `[TP, EQ]`,
i.e. not in ascending rank order. -/
def c8Klass : Klass :=
  { name := "X", mRID := "m8", readInProfile := [],
    possibleProfileList := [("X", [("class", [.TP, .EQ])])], attributes := [] }

/-- C8's witness instance: allowed class profiles already sorted. -/
def c8wKlass : Klass :=
  { name := "X", mRID := "m8w", readInProfile := [],
    possibleProfileList := [("X", [("class", [.EQ, .TP])])], attributes := [] }

/-- C9's witness instance: one exportable attribute `K.x` next to the
skipped `K.mRID`. -/
def c9Klass : Klass :=
  { name := "K", mRID := "m9",
    readInProfile := [],
    possibleProfileList := [("K", [("class", [.EQ]), ("x", [.EQ])])],
    attributes := [⟨.atom (.str "id"), "K.mRID"⟩, ⟨.atom (.str "v"), "K.x"⟩] }

/-! ### General helper lemmas -/

theorem contains_eq_true_iff {α : Type} [BEq α] [LawfulBEq α] (l : List α) (a : α) :
    l.contains a = true ↔ a ∈ l := List.elem_iff

theorem pct_ne_many (s : String) : ("%" ++ s) ≠ "many" := by
  intro h
  obtain ⟨data⟩ := s
  have h2 : '%' :: data = "many".toList := congrArg String.toList h
  simp at h2

theorem pct_ne_empty (s : String) : ("%" ++ s) ≠ "" := by
  intro h
  obtain ⟨data⟩ := s
  have h2 : '%' :: data = "".toList := congrArg String.toList h
  simp at h2

theorem lookupA_mem {α : Type} {l : List (String × α)} {k : String} {v : α}
    (h : lookupA l k = some v) : (k, v) ∈ l := by
  unfold lookupA at h
  cases hf : l.find? (fun kv => kv.1 == k) with
  | none => simp [hf] at h
  | some kv =>
    simp only [hf, Option.map_some] at h
    have hm := List.mem_of_find?_eq_some hf
    have hp := List.find?_some hf
    have hk : kv.1 = k := by simpa using hp
    have hv : (k, v) = kv := by
      obtain ⟨a, b⟩ := kv
      simp_all
    rwa [hv]

theorem updateA_of_not_mem {α : Type} {l : List (String × α)} {k : String} {v : α}
    (h : ∀ kv ∈ l, kv.1 ≠ k) : updateA l k v = l := by
  unfold updateA
  induction l with
  | nil => rfl
  | cons a t ih =>
    have ha : (a.1 == k) = false := by
      have := h a (List.mem_cons_self a t)
      simpa using this
    simp only [List.map_cons, ha, Bool.false_eq_true, if_false, List.cons.injEq, true_and]
    exact ih fun kv hkv => h kv (List.mem_cons_of_mem a hkv)

theorem lookupA_cons_of_ne {α : Type} {a : String × α} {t : List (String × α)}
    {k : String} (h : (a.1 == k) = false) : lookupA (a :: t) k = lookupA t k := by
  unfold lookupA
  rw [List.find?_cons_of_neg]
  simpa using h

theorem updateA_self {α : Type} {l : List (String × α)} {k : String} {v : α}
    (hnd : (l.map Prod.fst).Nodup) (hl : lookupA l k = some v) :
    updateA l k v = l := by
  induction l with
  | nil => simp [lookupA] at hl
  | cons a t ih =>
    by_cases hk : a.1 = k
    · have hv : v = a.2 := by
        unfold lookupA at hl
        rw [List.find?_cons_of_pos] at hl
        · simpa using hl.symm
        · simpa using hk
      have hnotk : ∀ kv ∈ t, kv.1 ≠ k := by
        intro kv hkv hkk
        have : a.1 ∈ t.map Prod.fst := by
          rw [hk, ← hkk]
          exact List.mem_map_of_mem Prod.fst hkv
        exact (List.nodup_cons.mp (by simpa using hnd)).1 this
      unfold updateA
      simp only [List.map_cons]
      rw [if_pos (by simpa using hk)]
      have ht := updateA_of_not_mem (l := t) (k := k) (v := v) hnotk
      unfold updateA at ht
      rw [ht, hv]
    · have ha : (a.1 == k) = false := by simpa using hk
      have hl2 : lookupA t k = some v := by rw [← lookupA_cons_of_ne ha]; exact hl
      have ht := ih (by simpa using (List.nodup_cons.mp (by simpa using hnd)).2) hl2
      unfold updateA
      simp only [List.map_cons, ha, Bool.false_eq_true, if_false]
      unfold updateA at ht
      rw [ht]

theorem firstActive_eq_none {l active : List cgmesProfile}
    (h : ∀ q ∈ l, q ∉ active) : firstActive l active = none := by
  unfold firstActive
  rw [List.find?_eq_none]
  intro p hp hc
  exact h p hp ((contains_eq_true_iff active p).mp hc)

theorem firstActive_eq_some {l active : List cgmesProfile} {p : cgmesProfile}
    (h : firstActive l active = some p) : p ∈ l ∧ p ∈ active := by
  unfold firstActive at h
  exact ⟨List.mem_of_find?_eq_some h,
    (contains_eq_true_iff active p).mp (List.find?_some h)⟩

theorem mem_sortByValue {l : List cgmesProfile} {p : cgmesProfile}
    (h : p ∈ sortByValue l) : p ∈ l := by
  unfold sortByValue at h
  exact (List.mem_insertionSort _).mp h

/-! ### Lemmas about class-level resolution -/

theorem classFallback_fst (active : List cgmesProfile) (k : Klass) (ws : List SWarn) :
    (classFallback active k ws).1 =
    firstActive (sortByValue (((lookupA k.possibleProfileList k.name).bind
      fun m => lookupA m "class").getD [])) active := by
  unfold classFallback
  cases hm : lookupA k.possibleProfileList k.name with
  | none => simp [hm, firstActive, sortByValue, List.insertionSort]
  | some m =>
    cases hl : lookupA m "class" with
    | none => simp [hm, hl, firstActive, sortByValue, List.insertionSort]
    | some l =>
      cases hf : firstActive (sortByValue l) active <;> simp [hm, hl, hf]

theorem classFallback_ppl (active : List cgmesProfile) (k : Klass) (ws : List SWarn)
    (hs : sortedPPL k.possibleProfileList) :
    (classFallback active k ws).2.2.1 = k.possibleProfileList := by
  unfold classFallback
  cases hm : lookupA k.possibleProfileList k.name with
  | none => simp [hm]
  | some m =>
    cases hl : lookupA m "class" with
    | none => simp [hm, hl]
    | some l =>
      have hmm := lookupA_mem hm
      have hml := lookupA_mem hl
      have hsm := hs.2 (k.name, m) hmm
      have hsl : List.Sorted (fun a b => cgmesProfile.value a ≤ cgmesProfile.value b) l :=
        hsm.2 ("class", l) hml
      have hsort : sortByValue l = l := List.Sorted.insertionSort_eq hsl
      have hu1 : updateA m "class" (sortByValue l) = m := by
        rw [hsort]; exact updateA_self hsm.1 hl
      have hu2 : updateA k.possibleProfileList k.name (updateA m "class" (sortByValue l))
          = k.possibleProfileList := by
        rw [hu1]; exact updateA_self hs.1 hm
      cases hf : firstActive (sortByValue l) active <;> simp [hm, hl, hf, hu2]

theorem classFallback_some (active : List cgmesProfile) (k : Klass) (ws : List SWarn)
    (q : cgmesProfile) (h : (classFallback active k ws).1 = some q) :
    q ∈ active ∧ ∃ l, (lookupA k.possibleProfileList k.name).bind
      (fun m => lookupA m "class") = some l ∧ q ∈ l := by
  unfold classFallback at h
  cases hm : lookupA k.possibleProfileList k.name with
  | none => simp [hm] at h
  | some m =>
    simp only [hm] at h
    cases hl : lookupA m "class" with
    | none => simp [hl] at h
    | some l =>
      simp only [hl] at h
      cases hf : firstActive (sortByValue l) active with
      | none => simp [hf] at h
      | some p =>
        simp only [hf, Option.some.injEq] at h
        subst h
        have := firstActive_eq_some hf
        exact ⟨this.2, l, by simp [hm, hl], mem_sortByValue this.1⟩

theorem classFallback_drop (active : List cgmesProfile) (k : Klass) (ws : List SWarn)
    (l : List cgmesProfile)
    (h1 : (lookupA k.possibleProfileList k.name).bind (fun m => lookupA m "class") = some l)
    (h2 : ∀ q ∈ l, q ∉ active) :
    (classFallback active k ws).1 = none ∧ (classFallback active k ws).2.1 = true ∧
    (classFallback active k ws).2.2.2 = ws ++ [.allClassInactive k.name] := by
  unfold classFallback
  cases hm : lookupA k.possibleProfileList k.name with
  | none => rw [hm] at h1; simp at h1
  | some m =>
    rw [hm] at h1
    simp only [Option.some_bind] at h1
    have hfind : firstActive (sortByValue l) active = none :=
      firstActive_eq_none fun q hq => h2 q (mem_sortByValue hq)
    simp [hm, h1, hfind]

theorem asp_ppl (active : List cgmesProfile) (rip : List (String × cgmesProfile))
    (kn : String) (ppl : PPLty) (a : AttrRec) (hs : sortedPPL ppl) :
    (attribute_serializationProfile active rip kn ppl a).2.1 = ppl := by
  unfold attribute_serializationProfile
  by_cases hname : attrNameOf a.attr_name = "mRID"
  · simp [hname]
  · simp only [hname, if_false]
    cases h1 : (match lookupA rip (attrNameOf a.attr_name) with
      | some p => if active.contains p then some p else none
      | none => (none : Option cgmesProfile)) with
    | some p => simp [h1]
    | none =>
      simp only [h1]
      cases hm : lookupA ppl (attrClassOf a.attr_name) with
      | none => simp [hm]
      | some m =>
        cases hl : lookupA m (attrNameOf a.attr_name) with
        | none => simp [hm, hl]
        | some l =>
          have hmm := lookupA_mem hm
          have hml := lookupA_mem hl
          have hsm := hs.2 _ hmm
          have hsl : List.Sorted (fun a b => cgmesProfile.value a ≤ cgmesProfile.value b) l :=
            hsm.2 _ hml
          have hsort : sortByValue l = l := List.Sorted.insertionSort_eq hsl
          have hu1 : updateA m (attrNameOf a.attr_name) (sortByValue l) = m := by
            rw [hsort]; exact updateA_self hsm.1 hl
          have hu2 : updateA ppl (attrClassOf a.attr_name)
              (updateA m (attrNameOf a.attr_name) (sortByValue l)) = ppl := by
            rw [hu1]; exact updateA_self hs.1 hm
          cases hf : firstActive (sortByValue l) active <;> simp [hm, hl, hf, hu2]

theorem processAttrs_ppl (active : List cgmesProfile) (rip : List (String × cgmesProfile))
    (kn : String) (csp : Option cgmesProfile) (as : List AttrRec) :
    ∀ (ppl : PPLty) (same : List AttrRec)
      (about : List (Option cgmesProfile × List AttrRec)) (ws : List SWarn),
    sortedPPL ppl → (processAttrs active rip kn csp as ppl same about ws).1 = ppl := by
  induction as with
  | nil => intro ppl same about ws hs; rfl
  | cons a t ih =>
    intro ppl same about ws hs
    have hp := asp_ppl active rip kn ppl a hs
    rcases hr : attribute_serializationProfile active rip kn ppl a with ⟨c, p2, w2⟩
    have hp2 : p2 = ppl := by rw [hr] at hp; exact hp
    subst hp2
    unfold processAttrs
    rw [hr]
    cases c with
    | none => exact ih p2 same about (ws ++ w2) hs
    | some asp =>
      by_cases hc : asp = csp
      · simp only [hc, if_pos rfl]
        exact ih p2 (same ++ [a]) about (ws ++ w2) hs
      · simp only [if_neg hc]
        exact ih p2 same (pushAssoc about asp a) (ws ++ w2) hs

theorem csp_ppl (active : List cgmesProfile) (k : Klass)
    (c : Option cgmesProfile × Bool × PPLty × List SWarn)
    (h : class_serializationProfile active k = .ok c)
    (hs : sortedPPL k.possibleProfileList) : c.2.2.1 = k.possibleProfileList := by
  unfold class_serializationProfile at h
  cases hr : lookupA k.readInProfile "class" with
  | none =>
    simp only [hr, Except.ok.injEq] at h
    rw [← h]
    exact classFallback_ppl active k [] hs
  | some p =>
    simp only [hr] at h
    by_cases ha : p ∈ active
    · rw [if_pos ((contains_eq_true_iff active p).mpr ha)] at h
      cases hch : (lookupA k.possibleProfileList k.name).bind (fun m => lookupA m "class") with
      | none => simp [hch] at h
      | some l =>
        simp only [hch] at h
        by_cases hc : p ∈ l
        · rw [if_pos ((contains_eq_true_iff l p).mpr hc), Except.ok.injEq] at h
          rw [← h]
        · rw [if_neg (fun hb => hc ((contains_eq_true_iff l p).mp hb)),
            Except.ok.injEq] at h
          rw [← h]
          exact classFallback_ppl active k _ hs
    · rw [if_neg (fun hb => ha ((contains_eq_true_iff active p).mp hb)),
        Except.ok.injEq] at h
      rw [← h]
      exact classFallback_ppl active k [] hs

theorem processKlass_ppl (active : List cgmesProfile) (k : Klass)
    (r : Option PK × PPLty × List SWarn) (h : processKlass active k = .ok r)
    (hs : sortedPPL k.possibleProfileList) : r.2.1 = k.possibleProfileList := by
  unfold processKlass at h
  cases hc : class_serializationProfile active k with
  | error e => rw [hc] at h; exact absurd h (by simp [Except.bind])
  | ok c =>
    rw [hc] at h
    have hppl := csp_ppl active k c hc hs
    obtain ⟨csp, dropped, ppl1, w1⟩ := c
    simp only at hppl
    subst hppl
    simp only [Except.bind] at h
    cases dropped with
    | true =>
      simp only [if_true, Except.ok.injEq] at h
      rw [← h]
    | false =>
      simp at h
      rw [← h]
      exact processAttrs_ppl active k.readInProfile k.name csp k.attributes
        k.possibleProfileList [] [] [] hs

theorem sortGo_ppls (active : List cgmesProfile) (ks : List Klass) :
    ∀ (ed ad : EDict) (ps : List PPLty) (ws : List SWarn) (out : SortOut),
    sortGo active ks ed ad ps ws = .ok out →
    (∀ k ∈ ks, sortedPPL k.possibleProfileList) →
    out.ppls = ps ++ ks.map fun k => k.possibleProfileList := by
  induction ks with
  | nil =>
    intro ed ad ps ws out h hs
    unfold sortGo at h
    simp only [Except.ok.injEq] at h
    rw [← h]
    simp
  | cons k t ih =>
    intro ed ad ps ws out h hs
    unfold sortGo at h
    cases hk : processKlass active k with
    | error e => rw [hk] at h; simp at h
    | ok r =>
      rw [hk] at h
      have hppl := processKlass_ppl active k r hk (hs k (List.mem_cons_self k t))
      have hst : ∀ k2 ∈ t, sortedPPL k2.possibleProfileList :=
        fun k2 hk2 => hs k2 (List.mem_cons_of_mem k hk2)
      obtain ⟨pk?, ppl2, w⟩ := r
      simp only at hppl
      subst hppl
      cases pk? with
      | none =>
        simp only at h
        have := ih _ _ _ _ _ h hst
        rw [this]
        simp
      | some pk =>
        simp only at h
        have := ih _ _ _ _ _ h hst
        rw [this]
        simp


/-- C8: the registry is *not* read-only during export: resolving a
class whose allowed `class` profile list is stored out of ascending
rank order sorts that list in place (line 185), mutating state
reachable from the registry.  Concretely, `c8Klass` starts with
`possibleProfileList` entry `[TP, EQ]` and ends with `[EQ, TP]`. -/
theorem C8_counterexample :
    _sort_classes_to_profile [.EQ] [c8Klass] = .ok
      ⟨[(some .EQ, [⟨"X", "m8", []⟩])], [],
       [[("X", [("class", [.EQ, .TP])])]], []⟩ ∧
    ([[("X", [("class", [cgmesProfile.EQ, .TP])])]] : List PPLty) ≠
      [c8Klass.possibleProfileList] := by decide

/-- C8 (amended): the only registry-reachable state `cim_export`
mutates are the allowed-profile lists it consults, which it sorts in
place; when every list of every instance's `possibleProfileList` is
already in ascending rank order (and the dictionaries have unique keys,
as Python dicts do), the final `possibleProfileList` of every instance
is unchanged. -/
theorem C8_mutation_amended (active : List cgmesProfile) (ks : List Klass)
    (out : SortOut) (h : _sort_classes_to_profile active ks = .ok out)
    (hs : ∀ k ∈ ks, sortedPPL k.possibleProfileList) :
    out.ppls = ks.map fun k => k.possibleProfileList := by
  have := sortGo_ppls active ks [] [] [] [] out h hs
  simpa using this

/-- C8 witness: a concrete already-sorted instance is left unchanged. -/
theorem C8_witness :
    (⟨[(some .EQ, [⟨"X", "m8w", []⟩])], [], [c8wKlass.possibleProfileList], []⟩
      : SortOut).ppls = [c8wKlass].map (fun k => k.possibleProfileList) :=
  C8_mutation_amended [.EQ] [c8wKlass]
    ⟨[(some .EQ, [⟨"X", "m8w", []⟩])], [], [c8wKlass.possibleProfileList], []⟩
    (by decide) (by decide)

/-- C7: `cim_export` does *not* iterate the profile enumeration in
ascending priority-rank order.  It walks `short_profile_name` in
dictionary insertion order, which is alphabetical by full profile name:
the enumeration sequence differs from the rank order
`[EQ, SSH, TP, SV, DY, GL, DI]`, and with payloads for both `EQ`
(rank 0) and `DI` (rank 6) present, `DiagramLayout` is handed to the
renderer before `Equipment`. -/
theorem C7_counterexample :
    (short_profile_name.map Prod.snd ≠
      [cgmesProfile.EQ, .SSH, .TP, .SV, .DY, .GL, .DI]) ∧
    profilesWithPayload c7ed [] = [("DiagramLayout", .DI), ("Equipment", .EQ)] ∧
    ¬ List.Sorted (fun a b => cgmesProfile.value a.2 ≤ cgmesProfile.value b.2)
        (profilesWithPayload c7ed []) := by decide

/-- C7 (amended): `cim_export` iterates the fixed profile enumeration
in the insertion order of `short_profile_name` — alphabetical by full
profile name (DiagramLayout, Dynamics, Equipment, GeographicalLocation,
StateVariables, SteadyStateHypothesis, Topology) — when assembling and
handing per-profile payloads to the renderer; the payload sequence is
therefore always sorted by profile name, not by priority rank. -/
theorem C7_alphabetical_iteration (ed ad : EDict) :
    List.Sorted (fun a b => a.1.data < b.1.data) (profilesWithPayload ed ad) := by
  have hm : List.Sorted (fun a b : String × cgmesProfile => a.1.data < b.1.data)
      short_profile_name := by decide
  exact List.Pairwise.sublist (List.filter_sublist _) hm

/-! ### C2: dropping instances without an active class profile -/

/-- C2: an instance is *not* always dropped when no class-level profile
qualifies.  When the class has no `possibleProfileList` entry at all
(or no `class` key in it), lines 196-199 only log a warning and fall
through: the instance survives with the empty-string profile and is
filed into the export plan under that key.  Concretely `c2Klass`
(no allowed-profile entry, nothing active for it) still contributes a
record to the export plan. -/
theorem C2_counterexample :
    _sort_classes_to_profile [.EQ] [c2Klass] = .ok
      ⟨[(none, [⟨"X", "m2", []⟩])], [], [[]], [.classNoProfile "X"]⟩ ∧
    ([(none, [(⟨"X", "m2", []⟩ : EClass)])] : EDict) ≠ [] := by decide

/-- C2 (amended): the drop happens exactly in the scanned-and-failed
case: when the class *has* an allowed `class` profile list and no entry
of it is active, `_sort_classes_to_profile` logs the all-profiles-
inactive warning and drops the whole instance — no record in the export
plan and none in the about plan.  (When the allowed-profile entry is
missing entirely, the instance instead survives under the empty-string
profile, as the counterexample shows.) -/
theorem C2_drop_amended (active : List cgmesProfile) (k : Klass)
    (l : List cgmesProfile)
    (h1 : (lookupA k.possibleProfileList k.name).bind (fun m => lookupA m "class") = some l)
    (h2 : ∀ q ∈ l, q ∉ active)
    (out : SortOut) (h : _sort_classes_to_profile active [k] = .ok out) :
    out.export_dict = [] ∧ out.export_about_dict = [] ∧
    SWarn.allClassInactive k.name ∈ out.warns := by
  have hdrop : ∃ p2 w, class_serializationProfile active k = .ok (none, true, p2, w) ∧
      SWarn.allClassInactive k.name ∈ w := by
    unfold class_serializationProfile
    cases hr : lookupA k.readInProfile "class" with
    | none =>
      rcases hcb : classFallback active k [] with ⟨a1, a2, a3, a4⟩
      have f := classFallback_drop active k [] l h1 h2
      rw [hcb] at f
      obtain ⟨f1, f2, f3⟩ := f
      simp only at f1 f2 f3
      subst f1; subst f2; subst f3
      exact ⟨a3, [] ++ [SWarn.allClassInactive k.name],
        by simp [hr, hcb], by simp⟩
    | some p =>
      by_cases ha : p ∈ active
      · have hcl : ¬ (l.contains p = true) :=
          fun hb => h2 p ((contains_eq_true_iff l p).mp hb) ha
        rcases hcb : classFallback active k [.readNotPossible k.name] with ⟨a1, a2, a3, a4⟩
        have f := classFallback_drop active k [.readNotPossible k.name] l h1 h2
        rw [hcb] at f
        obtain ⟨f1, f2, f3⟩ := f
        simp only at f1 f2 f3
        subst f1; subst f2; subst f3
        refine ⟨a3, [SWarn.readNotPossible k.name] ++ [SWarn.allClassInactive k.name],
          ?_, by simp⟩
        simp only [hr, if_pos ((contains_eq_true_iff active p).mpr ha), h1, if_neg hcl, hcb]
      · rcases hcb : classFallback active k [] with ⟨a1, a2, a3, a4⟩
        have f := classFallback_drop active k [] l h1 h2
        rw [hcb] at f
        obtain ⟨f1, f2, f3⟩ := f
        simp only at f1 f2 f3
        subst f1; subst f2; subst f3
        refine ⟨a3, [] ++ [SWarn.allClassInactive k.name], ?_, by simp⟩
        simp only [hr,
          if_neg (fun hb => ha ((contains_eq_true_iff active p).mp hb)), hcb]
  obtain ⟨p2, w, hcs, hw⟩ := hdrop
  have hpk : processKlass active k = .ok (none, p2, w) := by
    unfold processKlass
    rw [hcs]
    simp [Except.bind]
  unfold _sort_classes_to_profile at h
  simp only [sortGo, hpk] at h
  simp only [Except.ok.injEq] at h
  rw [← h]
  refine ⟨rfl, rfl, ?_⟩
  simpa using hw

/-- C2 witness: a concrete instance whose only allowed class profile is
inactive is dropped, with the warning logged. -/
theorem C2_witness :
    (⟨[], [], [[("Y", [("class", [cgmesProfile.TP])])]],
      [.allClassInactive "Y"]⟩ : SortOut).export_dict = [] ∧
    (⟨[], [], [[("Y", [("class", [cgmesProfile.TP])])]],
      [.allClassInactive "Y"]⟩ : SortOut).export_about_dict = [] ∧
    SWarn.allClassInactive c2wKlass.name ∈
      (⟨[], [], [[("Y", [("class", [cgmesProfile.TP])])]],
        [.allClassInactive "Y"]⟩ : SortOut).warns :=
  C2_drop_amended [.EQ] c2wKlass [.TP] (by decide) (by decide)
    ⟨[], [], [[("Y", [("class", [cgmesProfile.TP])])]], [.allClassInactive "Y"]⟩
    (by decide)

/-! ### C4: the two-step class-level resolution rule -/

/-- C4: class-level profile resolution follows exactly the two-step
rule of the specification: the provenance-declared `class` profile is
used when it is both active and in the class's allowed `class` profile
set; otherwise the allowed set is scanned in ascending priority-rank
order for the first active entry (`claimClassProfile` transcribes the
specification's wording; the hypothesis excludes the `KeyError` raised
at line 169 when the class has no allowed-profile entry, which the CIM
importer always provides). -/
theorem C4_two_step_rule (active : List cgmesProfile) (k : Klass)
    (c : Option cgmesProfile × Bool × PPLty × List SWarn)
    (h : class_serializationProfile active k = .ok c) :
    c.1 = claimClassProfile k.readInProfile k.possibleProfileList k.name active := by
  unfold class_serializationProfile at h
  unfold claimClassProfile
  cases hr : lookupA k.readInProfile "class" with
  | none =>
    simp only [hr, Except.ok.injEq] at h
    rw [← h]
    simp only [hr]
    exact classFallback_fst active k []
  | some p =>
    simp only [hr] at h
    by_cases ha : p ∈ active
    · rw [if_pos ((contains_eq_true_iff active p).mpr ha)] at h
      cases hch : (lookupA k.possibleProfileList k.name).bind (fun m => lookupA m "class") with
      | none => simp [hch] at h
      | some l =>
        simp only [hch] at h
        by_cases hc : p ∈ l
        · rw [if_pos ((contains_eq_true_iff l p).mpr hc), Except.ok.injEq] at h
          rw [← h]
          simp only [hr, hch, Option.getD_some]
          rw [if_pos]
          simp [contains_eq_true_iff, ha, hc]
        · rw [if_neg (fun hb => hc ((contains_eq_true_iff l p).mp hb)),
            Except.ok.injEq] at h
          rw [← h]
          simp only [hr, hch, Option.getD_some]
          rw [if_neg]
          · exact classFallback_fst active k _ |>.trans (by simp [hch])
          · simp [contains_eq_true_iff, hc]
    · rw [if_neg (fun hb => ha ((contains_eq_true_iff active p).mp hb)),
        Except.ok.injEq] at h
      rw [← h]
      simp only [hr]
      rw [if_neg]
      · exact classFallback_fst active k []
      · simp [contains_eq_true_iff, ha]

/-- C4 witness: a created (no-provenance) instance with allowed class
profiles `[TP, EQ]` and only `EQ` active resolves to `EQ` under both
the embedded code and the specification rule. -/
theorem C4_witness :
    ((some cgmesProfile.EQ, false,
        [("X", [("class", [cgmesProfile.EQ, .TP])])], []) :
      Option cgmesProfile × Bool × PPLty × List SWarn).1 =
      claimClassProfile c4Klass.readInProfile c4Klass.possibleProfileList
        c4Klass.name [.EQ] :=
  C4_two_step_rule [.EQ] c4Klass
    (some .EQ, false, [("X", [("class", [.EQ, .TP])])], []) (by rfl)

/-! ### C1: profile legality of assigned profiles -/

theorem csp_some (active : List cgmesProfile) (k : Klass)
    (c : Option cgmesProfile × Bool × PPLty × List SWarn)
    (h : class_serializationProfile active k = .ok c)
    (q : cgmesProfile) (hq : c.1 = some q) :
    q ∈ active ∧ ∃ l, (lookupA k.possibleProfileList k.name).bind
      (fun m => lookupA m "class") = some l ∧ q ∈ l := by
  unfold class_serializationProfile at h
  cases hr : lookupA k.readInProfile "class" with
  | none =>
    simp only [hr, Except.ok.injEq] at h
    rw [← h] at hq
    exact classFallback_some active k [] q hq
  | some p =>
    simp only [hr] at h
    by_cases ha : p ∈ active
    · rw [if_pos ((contains_eq_true_iff active p).mpr ha)] at h
      cases hch : (lookupA k.possibleProfileList k.name).bind (fun m => lookupA m "class") with
      | none => simp [hch] at h
      | some l =>
        simp only [hch] at h
        by_cases hc : p ∈ l
        · rw [if_pos ((contains_eq_true_iff l p).mpr hc), Except.ok.injEq] at h
          rw [← h] at hq
          simp only [Option.some.injEq] at hq
          subst hq
          exact ⟨ha, l, rfl, hc⟩
        · rw [if_neg (fun hb => hc ((contains_eq_true_iff l p).mp hb)),
            Except.ok.injEq] at h
          rw [← h] at hq
          obtain ⟨ha2, l2, hl2, hq2⟩ := classFallback_some active k _ q hq
          rw [hch] at hl2
          exact ⟨ha2, l2, hl2, hq2⟩
    · rw [if_neg (fun hb => ha ((contains_eq_true_iff active p).mp hb)),
        Except.ok.injEq] at h
      rw [← h] at hq
      exact classFallback_some active k [] q hq

/-- C1 (amended): the *class-level* half of the claim holds: whenever a
surviving instance is assigned a class profile, that profile is active
and a member of the class's allowed `class` profile set — the
provenance shortcut is used only when both active and schema-legal, and
the fallback scans the allowed set itself.  (The attribute-level half
fails: the counterexample shows an attribute record filed under a
provenance profile outside the attribute's allowed set, because lines
213-216 check only activeness.) -/
theorem C1_class_profile_legal (active : List cgmesProfile) (k : Klass)
    (pk : PK) (p2 : PPLty) (w : List SWarn)
    (h : processKlass active k = .ok (some pk, p2, w))
    (q : cgmesProfile) (hq : pk.csp = some q) :
    q ∈ active ∧ ∃ l, (lookupA k.possibleProfileList k.name).bind
      (fun m => lookupA m "class") = some l ∧ q ∈ l := by
  unfold processKlass at h
  cases hc : class_serializationProfile active k with
  | error e => rw [hc] at h; exact absurd h (by simp [Except.bind])
  | ok c =>
    rw [hc] at h
    obtain ⟨csp, dropped, ppl1, w1⟩ := c
    simp only [Except.bind] at h
    cases dropped with
    | true => simp at h
    | false =>
      simp only [Bool.false_eq_true, if_false, Except.ok.injEq] at h
      have hcsp : csp = some q := by
        have := congrArg (fun r => (Prod.fst r).map PK.csp) h
        simp at this
        rw [← hq, this]
      exact csp_some active k (csp, false, ppl1, w1) hc q hcsp

/-- C1: the claim fails at the attribute level.  For `c1Klass` the
attribute `K.x` has allowed-profile set `[EQ]`, yet its provenance
profile `SV` — active but *not* in that set — is used unchecked (lines
213-216 test only activeness), so the about plan files the record
under `SV`, a profile outside the attribute's allowed set. -/
theorem C1_counterexample :
    _sort_classes_to_profile [.EQ, .SV] [c1Klass] = .ok
      ⟨[(some .EQ, [⟨"K", "m1", []⟩])],
       [(some .SV, [⟨"K", "m1", [⟨.atom (.str "v"), "K.x"⟩]⟩])],
       [c1Klass.possibleProfileList], []⟩ ∧
    (lookupA c1Klass.possibleProfileList "K").bind (fun m => lookupA m "x") =
      some [cgmesProfile.EQ] ∧
    cgmesProfile.SV ∉ [cgmesProfile.EQ] :=
  ⟨by rfl, by rfl, by decide⟩

/-- C1 witness: for `c1Klass` the assigned class profile `EQ` is active
and in the class's allowed `class` set. -/
theorem C1_witness :
    cgmesProfile.EQ ∈ [cgmesProfile.EQ, .SV] ∧
    ∃ l, (lookupA c1Klass.possibleProfileList c1Klass.name).bind
      (fun m => lookupA m "class") = some l ∧ cgmesProfile.EQ ∈ l :=
  C1_class_profile_legal [.EQ, .SV] c1Klass
    ⟨some .EQ, [], [(some .SV, [⟨.atom (.str "v"), "K.x"⟩])]⟩
    c1Klass.possibleProfileList [] (by rfl) .EQ (by rfl)

/-! ### Lemmas about the reference resolver -/

theorem token_not_default4S (s : String) : isDefault4S (.str ("%" ++ s)) = false := by
  have h1 : (("%" ++ s) == "") = false := beq_eq_false_iff_ne.mpr (pct_ne_empty s)
  simp [isDefault4S, pyEqS, h1]

theorem token_not_default (s : String) :
    isDefaultScalar (.atom (.str ("%" ++ s))) = false := by
  have h1 : (("%" ++ s) == "") = false := beq_eq_false_iff_ne.mpr (pct_ne_empty s)
  have h2 : (("%" ++ s) == "many") = false := beq_eq_false_iff_ne.mpr (pct_ne_many s)
  simp [isDefaultScalar, isDefault4, pyEq, pyEqS, h1, h2]

theorem refListLoop_array (arena : List MObj) (res : List (String × Nat))
    (owner : String) (es : List PyScalar) :
    ∀ (arr : List String) (ws : List Warn) (le : Option PyScalar) (t : String),
    t ∈ (refListLoop arena res owner es (arr, ws, le)).1 →
    t ∈ arr ∨ ∃ s, t = "%" ++ s := by
  induction es with
  | nil => intro arr ws le t ht; exact Or.inl ht
  | cons e tl ih =>
    intro arr ws le t ht
    cases e with
    | obj hi =>
      cases hm : (arenaGet arena hi).mRID with
      | none =>
        simp only [refListLoop, hm] at ht
        rcases ih _ _ _ t ht with h1 | h2
        · rcases List.mem_append.mp h1 with h3 | h3
          · exact Or.inl h3
          · exact Or.inr ⟨_search_mRID res hi, by simpa using h3⟩
        · exact Or.inr h2
      | some m =>
        simp only [refListLoop, hm] at ht
        rcases ih _ _ _ t ht with h1 | h2
        · rcases List.mem_append.mp h1 with h3 | h3
          · exact Or.inl h3
          · exact Or.inr ⟨m, by simpa using h3⟩
        · exact Or.inr h2
    | str s =>
      simp only [refListLoop] at ht
      exact ih _ _ _ t ht
    | num q =>
      simp only [refListLoop] at ht
      exact ih _ _ _ t ht
    | bool b =>
      simp only [refListLoop] at ht
      exact ih _ _ _ t ht
    | pynone =>
      simp only [refListLoop] at ht
      exact ih _ _ _ t ht

theorem emitRecords_mem (key : String) (value : Option PyVal) (v : PyVal)
    (kk : String) (h : RefRec.attr v kk ∈ emitRecords key value) :
    kk = key ∧
    ((∃ xs x, value = some (.list xs) ∧ x ∈ xs ∧ isDefault4S x = false ∧ v = .atom x) ∨
     (∃ a, value = some (.atom a) ∧ v = .atom a ∧
       isDefaultScalar (.atom a) = false)) := by
  cases value with
  | none => simp [emitRecords] at h
  | some w =>
    cases w with
    | list xs =>
      simp only [emitRecords] at h
      rw [List.mem_map] at h
      obtain ⟨x, hx, hvx⟩ := h
      rw [List.mem_filter] at hx
      injection hvx with hv hk
      refine ⟨hk.symm, Or.inl ⟨xs, x, rfl, hx.1, ?_, hv.symm⟩⟩
      simpa using hx.2
    | atom a =>
      simp only [emitRecords] at h
      by_cases hd : isDefaultScalar (.atom a) = true
      · simp [hd] at h
      · rw [if_neg hd] at h
        rcases List.mem_singleton.mp h with heq
        injection heq with hv hk
        exact ⟨hk, Or.inr ⟨a, rfl, hv, Bool.eq_false_iff.mpr hd⟩⟩

theorem goodRecVal_of_scalar_filter {a : PyScalar}
    (h : isDefaultScalar (.atom a) = false) : goodRecVal (.atom a) := by
  have h4 : isDefault4 (.atom a) = false := by
    have := congrArg (fun b => b) h
    simp only [isDefaultScalar, Bool.or_eq_false_iff] at h
    exact h.1
  refine ⟨h4, fun xs => by simp, Or.inl ?_⟩
  simp only [isDefaultScalar, Bool.or_eq_false_iff] at h
  exact h.2

theorem refStep_recs (arena : List MObj) (res : List (String × Nat)) (owner : String)
    (st : RefOut × Option PyScalar) (key : String) (v : PyVal)
    (out2 : RefOut) (le2 : Option PyScalar)
    (h : refStep arena res owner st key v = .ok (out2, le2)) :
    ∀ w kk, RefRec.attr w kk ∈ out2.recs →
      RefRec.attr w kk ∈ st.1.recs ∨ goodRecVal w := by
  obtain ⟨out, le⟩ := st
  unfold refStep at h
  by_cases hkey : key = "readInProfile" ∨ key = "possibleProfileList"
  · rw [if_pos hkey] at h
    dsimp only at h
    simp only [Except.ok.injEq, Prod.mk.injEq] at h
    obtain ⟨h1, _⟩ := h
    intro w kk hm
    rw [← h1] at hm
    simp only at hm
    rcases List.mem_append.mp hm with h3 | h3
    · exact Or.inl h3
    · simp at h3
  · rw [if_neg hkey] at h
    cases v with
    | list xs =>
      dsimp only at h
      rcases hll : refListLoop arena res owner xs ([], out.warns, le) with ⟨array, ws2, le3⟩
      rw [hll] at h
      dsimp only at h
      simp only [Except.ok.injEq, Prod.mk.injEq] at h
      obtain ⟨h1, _⟩ := h
      intro w kk hm
      rw [← h1] at hm
      simp only at hm
      rcases List.mem_append.mp hm with h3 | h3
      · exact Or.inl h3
      · right
        have htok : ∀ t ∈ array, ∃ s, t = "%" ++ s := by
          intro t ht
          have h5 := refListLoop_array arena res owner xs [] out.warns le t
            (by rw [hll]; exact ht)
          rcases h5 with h4 | h4
          · simp at h4
          · exact h4
        rcases (emitRecords_mem key _ w kk h3).2 with
          ⟨xs2, x, hval, hx, hxf, hw⟩ | ⟨a, hval, hw, hfa⟩
        · subst hw
          have hxs2 : xs2 = array.map PyScalar.str := by
            revert hval
            cases array with
            | nil => intro hval; simpa using hval.symm
            | cons t ts =>
              cases ts with
              | nil => intro hval; simp at hval
              | cons t2 ts2 => intro hval; simpa using hval.symm
          subst hxs2
          rcases List.mem_map.mp hx with ⟨t, ht, hxt⟩
          obtain ⟨s, hts⟩ := htok t ht
          subst hxt
          subst hts
          refine ⟨by simpa [isDefault4, pyEq, isDefault4S] using hxf,
            fun xs3 => by simp, Or.inr ⟨s, rfl⟩⟩
        · subst hw
          have ha : ∃ t, a = PyScalar.str t ∧ t ∈ array := by
            revert hval
            cases array with
            | nil => intro hval; simp at hval
            | cons t ts =>
              cases ts with
              | nil =>
                intro hval
                simp only [Option.some.injEq, PyVal.atom.injEq] at hval
                exact ⟨t, hval.symm, List.mem_singleton_self t⟩
              | cons t2 ts2 => intro hval; simp at hval
          obtain ⟨t, hat, htm⟩ := ha
          subst hat
          exact goodRecVal_of_scalar_filter hfa
    | atom a =>
      cases a with
      | obj hi =>
        dsimp only at h
        cases hm2 : (arenaGet arena hi).mRID with
        | none =>
          simp only [hm2] at h
          by_cases hu : ("%" ++ _search_mRID res hi) = "%"
          · rw [if_pos hu] at h
            cases le with
            | none => simp at h
            | some e =>
              simp only [Except.ok.injEq, Prod.mk.injEq] at h
              obtain ⟨h1, _⟩ := h
              intro w kk hm
              rw [← h1] at hm
              simp only at hm
              rcases List.mem_append.mp hm with h3 | h3
              · exact Or.inl h3
              · right
                rcases (emitRecords_mem key _ w kk h3).2 with
                  ⟨xs2, x, hval, _, _, _⟩ | ⟨a2, hval, hw, hfa⟩
                · simp at hval
                · simp only [Option.some.injEq, PyVal.atom.injEq] at hval
                  subst hw
                  rw [← hval]
                  rw [← hval] at hfa
                  exact goodRecVal_of_scalar_filter hfa
          · rw [if_neg hu] at h
            simp only [Except.ok.injEq, Prod.mk.injEq] at h
            obtain ⟨h1, _⟩ := h
            intro w kk hm
            rw [← h1] at hm
            simp only at hm
            rcases List.mem_append.mp hm with h3 | h3
            · exact Or.inl h3
            · right
              rcases (emitRecords_mem key _ w kk h3).2 with
                ⟨xs2, x, hval, _, _, _⟩ | ⟨a2, hval, hw, hfa⟩
              · simp at hval
              · simp only [Option.some.injEq, PyVal.atom.injEq] at hval
                subst hw
                rw [← hval]
                rw [← hval] at hfa
                exact goodRecVal_of_scalar_filter hfa
        | some m =>
          simp only [hm2] at h
          simp only [Except.ok.injEq, Prod.mk.injEq] at h
          obtain ⟨h1, _⟩ := h
          intro w kk hm
          rw [← h1] at hm
          simp only at hm
          rcases List.mem_append.mp hm with h3 | h3
          · exact Or.inl h3
          · right
            rcases (emitRecords_mem key _ w kk h3).2 with
              ⟨xs2, x, hval, _, _, _⟩ | ⟨a2, hval, hw, hfa⟩
            · simp at hval
            · simp only [Option.some.injEq, PyVal.atom.injEq] at hval
              subst hw
              rw [← hval]
              rw [← hval] at hfa
              exact goodRecVal_of_scalar_filter hfa
      | str s =>
        dsimp only at h
        simp only [Except.ok.injEq, Prod.mk.injEq] at h
        obtain ⟨h1, _⟩ := h
        intro w kk hm
        rw [← h1] at hm
        simp only at hm
        rcases List.mem_append.mp hm with h3 | h3
        · exact Or.inl h3
        · right
          rcases (emitRecords_mem _ _ w kk h3).2 with
            ⟨xs2, x, hval, _, _, _⟩ | ⟨a2, hval, hw, hfa⟩
          · split at hval <;> simp_all
          · subst hw
            have ha2 : a2 = PyScalar.str s := by split at hval <;> simp_all
            subst ha2
            exact goodRecVal_of_scalar_filter hfa

      | num q =>
        dsimp only at h
        simp only [Except.ok.injEq, Prod.mk.injEq] at h
        obtain ⟨h1, _⟩ := h
        intro w kk hm
        rw [← h1] at hm
        simp only at hm
        rcases List.mem_append.mp hm with h3 | h3
        · exact Or.inl h3
        · right
          rcases (emitRecords_mem _ _ w kk h3).2 with
            ⟨xs2, x, hval, _, _, _⟩ | ⟨a2, hval, hw, hfa⟩
          · split at hval <;> simp_all
          · subst hw
            have ha2 : a2 = PyScalar.num q := by split at hval <;> simp_all
            subst ha2
            exact goodRecVal_of_scalar_filter hfa

      | bool b =>
        dsimp only at h
        simp only [Except.ok.injEq, Prod.mk.injEq] at h
        obtain ⟨h1, _⟩ := h
        intro w kk hm
        rw [← h1] at hm
        simp only at hm
        rcases List.mem_append.mp hm with h3 | h3
        · exact Or.inl h3
        · right
          rcases (emitRecords_mem _ _ w kk h3).2 with
            ⟨xs2, x, hval, _, _, _⟩ | ⟨a2, hval, hw, hfa⟩
          · split at hval <;> simp_all
          · subst hw
            have ha2 : a2 = PyScalar.bool b := by split at hval <;> simp_all
            subst ha2
            exact goodRecVal_of_scalar_filter hfa

      | pynone =>
        dsimp only at h
        simp only [Except.ok.injEq, Prod.mk.injEq] at h
        obtain ⟨h1, _⟩ := h
        intro w kk hm
        rw [← h1] at hm
        simp only at hm
        rcases List.mem_append.mp hm with h3 | h3
        · exact Or.inl h3
        · right
          rcases (emitRecords_mem _ _ w kk h3).2 with
            ⟨xs2, x, hval, _, _, _⟩ | ⟨a2, hval, hw, hfa⟩
          · split at hval <;> simp_all
          · subst hw
            have ha2 : a2 = PyScalar.pynone := by split at hval <;> simp_all
            subst ha2
            exact goodRecVal_of_scalar_filter hfa


theorem refGo_recs (arena : List MObj) (res : List (String × Nat)) (owner : String)
    (d : List (String × PyVal)) :
    ∀ (st fin : RefOut × Option PyScalar),
    refGo arena res owner d st = .ok fin →
    ∀ w kk, RefRec.attr w kk ∈ fin.1.recs →
      RefRec.attr w kk ∈ st.1.recs ∨ goodRecVal w := by
  induction d with
  | nil =>
    intro st fin h w kk hm
    unfold refGo at h
    simp only [Except.ok.injEq] at h
    rw [h]
    exact Or.inl hm
  | cons kv tl ih =>
    intro st fin h w kk hm
    obtain ⟨k1, v1⟩ := kv
    unfold refGo at h
    cases hs : refStep arena res owner st k1 v1 with
    | error e => rw [hs] at h; simp [Except.bind] at h
    | ok st2 =>
      rw [hs] at h
      simp only [Except.bind] at h
      rcases ih st2 fin h w kk hm with h1 | h2
      · exact refStep_recs arena res owner st k1 v1 st2.1 st2.2 (by rw [hs]) w kk h1
      · exact Or.inr h2

theorem refRecs_good (arena : List MObj) (d : List (String × PyVal))
    (res : List (String × Nat)) (owner : String) (out : RefOut)
    (h : _get_reference_uuid arena d res owner = .ok out) :
    ∀ v k, RefRec.attr v k ∈ out.recs → goodRecVal v := by
  intro v k hm
  unfold _get_reference_uuid at h
  cases hg : refGo arena res owner d (⟨[], []⟩, none) with
  | error e => rw [hg] at h; simp [Except.map] at h
  | ok fin =>
    rw [hg] at h
    simp only [Except.map, Except.ok.injEq] at h
    rcases refGo_recs arena res owner d _ fin hg v k (by rw [h]; exact hm) with h1 | h2
    · simp at h1
    · exact h2

/-- C5: default suppression holds.  Every attribute record emitted by
`_get_reference_uuid` has a value that fails the Python `==` membership
test against `['', None, 0, 0.0]`, and no element of a list-valued
record is such a default either (in fact the resolver never emits a
list-valued record at all: list values are flattened into one scalar
record per element, each filtered). -/
theorem C5_default_suppression (arena : List MObj) (d : List (String × PyVal))
    (res : List (String × Nat)) (owner : String) (out : RefOut)
    (h : _get_reference_uuid arena d res owner = .ok out)
    (v : PyVal) (k : String) (hm : RefRec.attr v k ∈ out.recs) :
    isDefault4 v = false ∧
    ∀ xs, v = PyVal.list xs → ∀ x ∈ xs, isDefault4S x = false := by
  obtain ⟨g1, g2, _⟩ := refRecs_good arena d res owner out h v k hm
  exact ⟨g1, fun xs hxs => absurd hxs (g2 xs)⟩

/-- C5 witness: a plain scalar value `"v"` is emitted and is no
default. -/
theorem C5_witness :
    isDefault4 (.atom (.str "v")) = false ∧
    ∀ xs, PyVal.atom (.str "v") = PyVal.list xs →
      ∀ x ∈ xs, isDefault4S x = false :=
  C5_default_suppression [] c5Dict [] "O"
    ⟨[.attr (.atom (.str "v")) "K.a"], []⟩ (by rfl)
    (.atom (.str "v")) "K.a" (List.Mem.head _)

/-- C10: the suppression filter is Python `==`-based, so it also drops
the boolean `False` (since `False == 0`) and the string `'many'`: no
emitted attribute record ever carries either value. -/
theorem C10_eq_based_suppression (arena : List MObj) (d : List (String × PyVal))
    (res : List (String × Nat)) (owner : String) (out : RefOut)
    (h : _get_reference_uuid arena d res owner = .ok out)
    (v : PyVal) (k : String) (hm : RefRec.attr v k ∈ out.recs) :
    v ≠ PyVal.atom (.bool false) ∧ v ≠ PyVal.atom (.str "many") := by
  obtain ⟨g1, _, g3⟩ := refRecs_good arena d res owner out h v k hm
  constructor
  · intro hv
    subst hv
    have hc : isDefault4 (PyVal.atom (PyScalar.bool false)) = true := by decide
    rw [g1] at hc
    exact Bool.false_ne_true hc
  · intro hv
    subst hv
    rcases g3 with g3 | ⟨s, hs⟩
    · have hc : pyEq (PyVal.atom (PyScalar.str "many"))
          (PyVal.atom (PyScalar.str "many")) = true := by decide
      rw [g3] at hc
      exact Bool.false_ne_true hc
    · injection hs with hs1
      injection hs1 with hs2
      exact pct_ne_many s hs2.symm

/-- C10 witness: the emitted record value `"v"` is neither `False` nor
`'many'`. -/
theorem C10_witness :
    PyVal.atom (.str "v") ≠ PyVal.atom (.bool false) ∧
    PyVal.atom (.str "v") ≠ PyVal.atom (.str "many") :=
  C10_eq_based_suppression [] c5Dict [] "O"
    ⟨[.attr (.atom (.str "v")) "K.a"], []⟩ (by rfl)
    (.atom (.str "v")) "K.a" (List.Mem.head _)

theorem refListLoop_resolvable (arena : List MObj) (res : List (String × Nat))
    (owner : String) (es : List PyScalar) :
    ∀ (arr : List String) (ws : List Warn) (le : Option PyScalar),
    (∀ e ∈ es, isResolvableObj arena e = true) →
    ∃ le2, refListLoop arena res owner es (arr, ws, le) =
      (arr ++ es.map (elemToken arena), ws, le2) := by
  induction es with
  | nil => intro arr ws le _; exact ⟨le, by simp [refListLoop]⟩
  | cons e tl ih =>
    intro arr ws le hall
    have he := hall e (List.mem_cons_self e tl)
    have htl := fun e2 he2 => hall e2 (List.mem_cons_of_mem e he2)
    cases e with
    | obj hi =>
      cases hm : (arenaGet arena hi).mRID with
      | none => simp [isResolvableObj, hm] at he
      | some m =>
        obtain ⟨le2, hh⟩ := ih (arr ++ ["%" ++ m]) ws (some (.obj hi)) htl
        refine ⟨le2, ?_⟩
        simp only [refListLoop, hm]
        rw [hh]
        simp [elemToken, hm]
    | str s => simp [isResolvableObj] at he
    | num q => simp [isResolvableObj] at he
    | bool b => simp [isResolvableObj] at he
    | pynone => simp [isResolvableObj] at he

/-- C6 (amended): every resolvable element of a list-valued attribute
yields its own scalar reference-token record, in element order.  A
singleton list collapses to the single scalar token record, and a list
of two or more elements yields one scalar record *per element* — not a
single record carrying the list.  (Non-model elements are warned about
and dropped, as the original claim states.) -/
theorem C6_flattened_records (arena : List MObj) (res : List (String × Nat))
    (owner key : String) (es : List PyScalar)
    (hkey : ¬(key = "readInProfile" ∨ key = "possibleProfileList"))
    (hne : es ≠ [])
    (hall : ∀ e ∈ es, isResolvableObj arena e = true) :
    _get_reference_uuid arena [(key, .list es)] res owner =
      .ok ⟨es.map fun e => .attr (.atom (.str (elemToken arena e))) key, []⟩ := by
  have htok : ∀ e ∈ es, ∃ s, elemToken arena e = "%" ++ s := by
    intro e he
    cases e with
    | obj hi =>
      cases hm2 : (arenaGet arena hi).mRID with
      | some m => exact ⟨m, by simp [elemToken, hm2]⟩
      | none => exact ⟨"", by simp [elemToken, hm2]⟩
    | str s => exact ⟨"", by simp [elemToken]⟩
    | num q => exact ⟨"", by simp [elemToken]⟩
    | bool b => exact ⟨"", by simp [elemToken]⟩
    | pynone => exact ⟨"", by simp [elemToken]⟩
  obtain ⟨le2, hll⟩ := refListLoop_resolvable arena res owner es [] [] none hall
  unfold _get_reference_uuid refGo refStep
  rw [if_neg hkey]
  dsimp only
  rw [hll]
  dsimp only
  simp only [List.nil_append]
  cases hes : es with
  | nil => exact absurd hes hne
  | cons e1 tl =>
    cases tl with
    | nil =>
      obtain ⟨s1, hs1⟩ := htok e1 (by rw [hes]; exact List.mem_cons_self e1 [])
      simp only [List.map_cons, List.map_nil]
      dsimp only [emitRecords]
      rw [hs1, if_neg (by rw [token_not_default s1]; exact Bool.false_ne_true)]
      simp [refGo, Except.map, Except.bind]
    | cons e2 tl2 =>
      simp only [List.map_cons]
      dsimp only [emitRecords]
      have hfil : ∀ x ∈ (es.map (elemToken arena)).map PyScalar.str,
          (!(isDefault4S x)) = true := by
        intro x hx
        rcases List.mem_map.mp hx with ⟨t, ht, hxt⟩
        rcases List.mem_map.mp ht with ⟨e, he2, hte⟩
        obtain ⟨s, hsx⟩ := htok e he2
        rw [← hxt, ← hte, hsx, token_not_default4S]
        rfl
      rw [hes] at hfil
      simp only [List.map_cons] at hfil
      rw [List.filter_eq_self.mpr hfil]
      simp [refGo, Except.map, Except.bind, List.map_map, Function.comp]

/-- C6: a list with two or more resolvable elements does *not* yield a
single record whose value is the list of reference tokens — the
emission loop of lines 85-88 flattens it into one scalar record per
element.  Concretely a two-element list yields two scalar token
records and no list-valued record. -/
theorem C6_counterexample :
    _get_reference_uuid c6Arena [("K.a", .list [.obj 0, .obj 1])] [] "OWN" =
      .ok ⟨[.attr (.atom (.str "%A1")) "K.a", .attr (.atom (.str "%B1")) "K.a"], []⟩ ∧
    hasListValuedRec [RefRec.attr (.atom (.str "%A1")) "K.a",
      .attr (.atom (.str "%B1")) "K.a"] = false ∧
    ([RefRec.attr (.atom (.str "%A1")) "K.a",
      .attr (.atom (.str "%B1")) "K.a"].length = 2) := by
  exact ⟨by rfl, by rfl, by rfl⟩

/-- C6 witness: two resolvable elements yield exactly the two per-
element token records. -/
theorem C6_witness :
    _get_reference_uuid c6Arena [("K.b", .list [.obj 0, .obj 1])] [] "O2" =
      .ok ⟨[PyScalar.obj 0, .obj 1].map fun e =>
        .attr (.atom (.str (elemToken c6Arena e))) "K.b", []⟩ :=
  C6_flattened_records c6Arena [] "O2" "K.b" [.obj 0, .obj 1]
    (by decide) (by decide) (by decide)

/-- C3: an unresolvable reference (no identifier, not found by the
identity scan) is *not* omitted.  The warning is logged, but the bare
`'%'` token — the `'%'` prefix concatenated with the empty search
result — is still appended (line 58) and emitted as a record (it passes
the default filter), so the export carries a dangling empty reference.
-/
theorem C3_counterexample :
    _get_reference_uuid c3Arena [("K.a", .list [.obj 0])] [] "OWN" =
      .ok ⟨[.attr (.atom (.str "%")) "K.a"],
           [.refNotFoundMany "T" "OWN"]⟩ ∧
    ([RefRec.attr (.atom (.str "%")) "K.a"] : List RefRec) ≠ [] :=
  ⟨by rfl, by simp⟩

/-- C3 (amended): for a list element with no direct identifier that the
identity scan cannot find, the resolver logs the warning naming the
referenced object's class and the owner's identifier and *still emits*
the reference: the record carries the bare `'%'` marker (rendered
downstream as an empty `rdf:resource`); the rest of the export
proceeds. -/
theorem C3_dangling_not_omitted (arena : List MObj) (res : List (String × Nat))
    (owner key : String) (hIdx : Nat)
    (hkey : ¬(key = "readInProfile" ∨ key = "possibleProfileList"))
    (hm : (arenaGet arena hIdx).mRID = none)
    (hs : _search_mRID res hIdx = "") :
    _get_reference_uuid arena [(key, .list [.obj hIdx])] res owner =
      .ok ⟨[.attr (.atom (.str "%")) key],
           [.refNotFoundMany (arenaGet arena hIdx).className owner]⟩ := by
  unfold _get_reference_uuid refGo refStep
  rw [if_neg hkey]
  dsimp only
  simp only [refListLoop, hm, hs]
  have hpe : ("%" : String) ++ "" = "%" := rfl
  rw [hpe]
  have hd : isDefaultScalar (.atom (.str "%")) = false := by decide
  simp [refGo, Except.bind, Except.map, emitRecords, hd]

/-- C3 witness: a concrete unresolvable reference yields the bare-`%`
record next to the warning. -/
theorem C3_witness :
    _get_reference_uuid [⟨"U", none⟩] [("K.b", .list [.obj 0])] [("z", 5)] "OW2" =
      .ok ⟨[.attr (.atom (.str "%")) "K.b"],
           [.refNotFoundMany (arenaGet [⟨"U", none⟩] 0).className "OW2"]⟩ :=
  C3_dangling_not_omitted [⟨"U", none⟩] [("z", 5)] "OW2" "K.b" 0
    (by decide) (by decide) (by decide)

/-! ### C9: the mRID attribute is never emitted -/

theorem pushAssoc_forall {κ α : Type} [DecidableEq κ] (P : α → Prop)
    (d : List (κ × List α)) (k : κ) (v : α)
    (hd : ∀ e ∈ d, ∀ x ∈ e.2, P x) (hv : P v) :
    ∀ e ∈ pushAssoc d k v, ∀ x ∈ e.2, P x := by
  unfold pushAssoc
  by_cases hk : (d.find? fun e => e.1 = k).isSome
  · rw [if_pos hk]
    intro e he x hx
    rcases List.mem_map.mp he with ⟨e0, he0, hee⟩
    by_cases hk0 : e0.1 = k
    · rw [if_pos hk0] at hee
      rw [← hee] at hx
      simp only at hx
      rcases List.mem_append.mp hx with h1 | h1
      · exact hd e0 he0 x h1
      · rw [List.mem_singleton.mp h1]
        exact hv
    · rw [if_neg hk0] at hee
      rw [← hee] at hx
      exact hd e0 he0 x hx
  · rw [if_neg hk]
    intro e he x hx
    rcases List.mem_append.mp he with h1 | h1
    · exact hd e h1 x hx
    · rw [List.mem_singleton.mp h1] at hx
      simp only at hx
      rw [List.mem_singleton.mp hx]
      exact hv

theorem asp_not_mRID (active : List cgmesProfile) (rip : List (String × cgmesProfile))
    (kn : String) (ppl : PPLty) (a : AttrRec)
    (asp : Option cgmesProfile) (p2 : PPLty) (w2 : List SWarn)
    (h : attribute_serializationProfile active rip kn ppl a = (some asp, p2, w2)) :
    attrNameOf a.attr_name ≠ "mRID" := by
  intro hname
  rw [attribute_serializationProfile, if_pos hname] at h
  simp at h

theorem processAttrs_noMRID (active : List cgmesProfile)
    (rip : List (String × cgmesProfile)) (kn : String) (csp : Option cgmesProfile)
    (as : List AttrRec) :
    ∀ (ppl : PPLty) (same : List AttrRec)
      (about : List (Option cgmesProfile × List AttrRec)) (ws : List SWarn),
    (∀ a ∈ same, attrNameOf a.attr_name ≠ "mRID") →
    (∀ e ∈ about, ∀ a ∈ e.2, attrNameOf a.attr_name ≠ "mRID") →
    (∀ a ∈ (processAttrs active rip kn csp as ppl same about ws).2.1,
      attrNameOf a.attr_name ≠ "mRID") ∧
    (∀ e ∈ (processAttrs active rip kn csp as ppl same about ws).2.2.1,
      ∀ a ∈ e.2, attrNameOf a.attr_name ≠ "mRID") := by
  induction as with
  | nil => intro ppl same about ws hsame habout; exact ⟨hsame, habout⟩
  | cons a t ih =>
    intro ppl same about ws hsame habout
    rcases hr : attribute_serializationProfile active rip kn ppl a with ⟨c, p2, w2⟩
    unfold processAttrs
    rw [hr]
    cases c with
    | none => exact ih p2 same about (ws ++ w2) hsame habout
    | some asp =>
      have hna := asp_not_mRID active rip kn ppl a asp p2 w2 hr
      by_cases hc : asp = csp
      · simp only [hc, if_pos rfl]
        refine ih p2 (same ++ [a]) about (ws ++ w2) ?_ habout
        intro a2 ha2
        rcases List.mem_append.mp ha2 with h1 | h1
        · exact hsame a2 h1
        · rw [List.mem_singleton.mp h1]
          exact hna
      · simp only [if_neg hc]
        refine ih p2 same (pushAssoc about asp a) (ws ++ w2) hsame ?_
        exact pushAssoc_forall (fun a2 => attrNameOf a2.attr_name ≠ "mRID")
          about asp a habout hna

theorem processKlass_noMRID (active : List cgmesProfile) (k : Klass)
    (pk : PK) (p2 : PPLty) (w : List SWarn)
    (h : processKlass active k = .ok (some pk, p2, w)) :
    (∀ a ∈ pk.same, attrNameOf a.attr_name ≠ "mRID") ∧
    (∀ e ∈ pk.about, ∀ a ∈ e.2, attrNameOf a.attr_name ≠ "mRID") := by
  unfold processKlass at h
  cases hc : class_serializationProfile active k with
  | error e => rw [hc] at h; exact absurd h (by simp [Except.bind])
  | ok c =>
    rw [hc] at h
    obtain ⟨csp, dropped, ppl1, w1⟩ := c
    simp only [Except.bind] at h
    cases dropped with
    | true => simp at h
    | false =>
      simp only [Bool.false_eq_true, if_false, Except.ok.injEq, Prod.mk.injEq] at h
      obtain ⟨h1, _⟩ := h
      have hinv := processAttrs_noMRID active k.readInProfile k.name csp k.attributes
        ppl1 [] [] [] (by simp) (by simp)
      have h2 := Option.some.inj h1
      rw [← h2]
      exact hinv

/-- The no-`mRID` property over a whole plan dictionary. -/
theorem sortGo_noMRID (active : List cgmesProfile) (ks : List Klass) :
    ∀ (ed ad : EDict) (ps : List PPLty) (ws : List SWarn) (out : SortOut),
    sortGo active ks ed ad ps ws = .ok out →
    (∀ e ∈ ed, ∀ c ∈ e.2, ∀ a ∈ c.attributes, attrNameOf a.attr_name ≠ "mRID") →
    (∀ e ∈ ad, ∀ c ∈ e.2, ∀ a ∈ c.attributes, attrNameOf a.attr_name ≠ "mRID") →
    (∀ e ∈ out.export_dict, ∀ c ∈ e.2, ∀ a ∈ c.attributes,
      attrNameOf a.attr_name ≠ "mRID") ∧
    (∀ e ∈ out.export_about_dict, ∀ c ∈ e.2, ∀ a ∈ c.attributes,
      attrNameOf a.attr_name ≠ "mRID") := by
  induction ks with
  | nil =>
    intro ed ad ps ws out h hed had
    unfold sortGo at h
    simp only [Except.ok.injEq] at h
    rw [← h]
    exact ⟨hed, had⟩
  | cons k t ih =>
    intro ed ad ps ws out h hed had
    unfold sortGo at h
    cases hk : processKlass active k with
    | error e => rw [hk] at h; simp at h
    | ok r =>
      rw [hk] at h
      obtain ⟨pk?, ppl2, w⟩ := r
      cases pk? with
      | none =>
        simp only at h
        exact ih ed ad _ _ out h hed had
      | some pk =>
        simp only at h
        obtain ⟨hsame, habout⟩ := processKlass_noMRID active k pk ppl2 w hk
        refine ih _ _ _ _ out h ?_ ?_
        · exact pushAssoc_forall
            (fun c => ∀ a ∈ c.attributes, attrNameOf a.attr_name ≠ "mRID")
            ed pk.csp ⟨k.name, k.mRID, pk.same⟩ hed hsame
        · have hfold : ∀ (entries : List (Option cgmesProfile × List AttrRec))
              (acc : EDict),
              (∀ e ∈ acc, ∀ c ∈ e.2, ∀ a ∈ c.attributes,
                attrNameOf a.attr_name ≠ "mRID") →
              (∀ e ∈ entries, ∀ a ∈ e.2, attrNameOf a.attr_name ≠ "mRID") →
              ∀ e ∈ entries.foldl (fun acc kv =>
                  pushAssoc acc kv.1 (⟨k.name, k.mRID, kv.2⟩ : EClass)) acc,
                ∀ c ∈ e.2, ∀ a ∈ c.attributes, attrNameOf a.attr_name ≠ "mRID" := by
            intro entries
            induction entries with
            | nil => intro acc hacc _; exact hacc
            | cons ent tl ihe =>
              intro acc hacc hent
              simp only [List.foldl_cons]
              refine ihe _ ?_ (fun e he => hent e (List.mem_cons_of_mem ent he))
              exact pushAssoc_forall
                (fun c => ∀ a ∈ c.attributes, attrNameOf a.attr_name ≠ "mRID")
                acc ent.1 ⟨k.name, k.mRID, ent.2⟩ hacc
                (hent ent (List.mem_cons_self ent tl))
          exact hfold pk.about ad had habout

/-- C9: the synthetic `mRID` attribute is never emitted: in every
profile's entry of both the export plan and the about plan, no record's
attribute name (the part after the class qualifier) is `mRID` — the
skip of lines 207-209 precedes every insertion point. -/
theorem C9_mRID_never_emitted (active : List cgmesProfile) (ks : List Klass)
    (out : SortOut) (h : _sort_classes_to_profile active ks = .ok out)
    (p : Option cgmesProfile) (cs : List EClass)
    (hp : (p, cs) ∈ out.export_dict ∨ (p, cs) ∈ out.export_about_dict)
    (c : EClass) (hc : c ∈ cs) (a : AttrRec) (ha : a ∈ c.attributes) :
    attrNameOf a.attr_name ≠ "mRID" := by
  have hinv := sortGo_noMRID active ks [] [] [] [] out h (by simp) (by simp)
  rcases hp with hp | hp
  · exact hinv.1 (p, cs) hp c hc a ha
  · exact hinv.2 (p, cs) hp c hc a ha

/-- C9 witness: in the concrete run of `c9Klass` the surviving record
is `K.x`, whose attribute name is not `mRID`. -/
theorem C9_witness : attrNameOf "K.x" ≠ "mRID" :=
  C9_mRID_never_emitted [.EQ] [c9Klass]
    ⟨[(some .EQ, [⟨"K", "m9", [⟨.atom (.str "v"), "K.x"⟩]⟩])], [],
      [c9Klass.possibleProfileList], []⟩ (by rfl)
    (some .EQ) [⟨"K", "m9", [⟨.atom (.str "v"), "K.x"⟩]⟩]
    (Or.inl (List.Mem.head _)) ⟨"K", "m9", [⟨.atom (.str "v"), "K.x"⟩]⟩
    (List.Mem.head _) ⟨.atom (.str "v"), "K.x"⟩ (List.Mem.head _)
